import Mathlib

/-!
Shallow embedding of the upfiles backend (src/backend/src/main.rs).

Conventions of the embedding:
* machine integers (`i64`, `u64`, `u32`) become `Int` / `Nat` (no overflow is
  reachable at the magnitudes the program uses);
* `DateTime<Utc>` becomes `Int`, a timestamp in seconds; `Utc::now()` becomes an
  explicit `now` parameter threaded to each operation;
* `HashMap<String, Meja>` becomes an association list `List (String × Meja)`;
* the sqlite tables become lists of row structures, and each handler returns,
  next to the new in-memory state, the database rows it wrote, the set of disk
  paths present, and whether it requested a broadcast;
* the random generator of `rand::thread_rng` becomes an explicit stream
  `Nat → Nat` of the successive samples of `gen_range(0..36)`.
-/

namespace Upfiles

/-- `TimerState` (main.rs lines 45-51). -/
structure TimerState where
  is_running : Bool
  duration_seconds : Int
  remaining_seconds : Int
  started_at : Option Int
deriving DecidableEq, Repr

/-- Timer mutation of `set_timer` (main.rs lines 557-561). -/
def set_timer (duration_minutes : Int) : TimerState :=
  { is_running := false
    duration_seconds := duration_minutes * 60
    remaining_seconds := duration_minutes * 60
    started_at := none }

/-- Timer mutation of `start_timer` (main.rs lines 581-588). -/
def start_timer (t : TimerState) (now : Int) : TimerState :=
  if t.is_running = false ∧ 0 < t.remaining_seconds then
    { t with is_running := true, started_at := some now }
  else t

/-- Timer mutation of `pause_timer` (main.rs lines 604-615). -/
def pause_timer (t : TimerState) (now : Int) : TimerState :=
  if t.is_running then
    match t.started_at with
    | some started =>
        { t with
          remaining_seconds := max (t.remaining_seconds - (now - started)) 0
          is_running := false
          started_at := none }
    | none => { t with is_running := false, started_at := none }
  else t

/-- Timer mutation of `reset_timer` (main.rs lines 631-634). -/
def reset_timer (t : TimerState) : TimerState :=
  { t with
    remaining_seconds := t.duration_seconds
    is_running := false
    started_at := none }

/-- Timer mutation of `adjust_timer` (main.rs lines 655-666). -/
def adjust_timer (t : TimerState) (delta now : Int) : TimerState :=
  if t.is_running then
    match t.started_at with
    | some started =>
        let elapsed := now - started
        let current_remaining := t.duration_seconds - elapsed
        { t with duration_seconds := current_remaining + delta + elapsed }
    | none => t
  else
    let newRemaining := max (t.remaining_seconds + delta) 0
    { t with remaining_seconds := newRemaining, duration_seconds := newRemaining }

/-- Result of one iteration of the ticker loop body.  `saved` records the
argument of any `save_timer_to_db` call made during the iteration. -/
structure TickResult where
  timer : TimerState
  last_remaining : Int
  broadcast : Bool
  saved : Option TimerState
deriving DecidableEq, Repr

/-- One iteration of the loop body of `start_global_timer_task`
(main.rs lines 1197-1231).  `last` is the local `last_remaining` of the task.
The loop body contains no `save_timer_to_db` call, so `saved` is `none` on
every path. -/
def timer_tick (t : TimerState) (last now : Int) : TickResult :=
  if t.is_running then
    match t.started_at with
    | some started =>
        let elapsed := now - started
        let remaining := max (t.duration_seconds - elapsed) 0
        if remaining ≠ last then
          if remaining ≤ 0 then
            ⟨{ t with
                remaining_seconds := remaining
                is_running := false
                started_at := none },
              remaining, true, none⟩
          else
            ⟨{ t with remaining_seconds := remaining }, remaining, true, none⟩
        else ⟨t, last, false, none⟩
    | none => ⟨t, last, false, none⟩
  else ⟨t, t.remaining_seconds, false, none⟩

/-- The admin/ticker operations that mutate the timer. -/
inductive TimerAct where
  | start
  | pause
  | reset
  | adjust (delta : Int)
  | tick
deriving DecidableEq, Repr

/-- Apply one operation to the pair (timer, ticker-local `last_remaining`)
at wall-clock instant `now`. -/
def applyAct (p : TimerState × Int) (now : Int) : TimerAct → TimerState × Int
  | .start => (start_timer p.1 now, p.2)
  | .pause => (pause_timer p.1 now, p.2)
  | .reset => (reset_timer p.1, p.2)
  | .adjust d => (adjust_timer p.1 d now, p.2)
  | .tick =>
      let r := timer_tick p.1 p.2 now
      (r.timer, r.last_remaining)

/-- Run a sequence of operations; each step advances the wall clock by the
given non-negative number of seconds and then applies its operation.  The
returned list holds the timer state after every operation, in order. -/
def runTimer (p : TimerState × Int) (now : Int) : List (Nat × TimerAct) → List TimerState
  | [] => []
  | (dt, a) :: rest =>
      let now2 := now + (dt : Int)
      let p2 := applyAct p now2 a
      p2.1 :: runTimer p2 now2 rest

/-- The positive part of the delta carried by an operation. -/
def posOf : TimerAct → Int
  | .adjust d => max d 0
  | _ => 0

/-- Sum of the positive adjustment deltas of a sequence of operations. -/
def posSum : List (Nat × TimerAct) → Int
  | [] => 0
  | (_, a) :: rest => posOf a + posSum rest

/-- Invariant carried through timer runs: both persisted seconds fields are
bounded by `B`, `B` is non-negative, and any start anchor lies in the past. -/
def TimerInv (B now : Int) (t : TimerState) : Prop :=
  t.remaining_seconds ≤ B ∧ t.duration_seconds ≤ B ∧ 0 ≤ B ∧
    (∀ s, t.started_at = some s → s ≤ now)

/-- `FileInfo` (main.rs lines 36-43). -/
structure FileInfo where
  id : String
  filename : String
  size : Nat
  uploaded_at : Int
  path : String
deriving DecidableEq, Repr

/-- `Meja` (main.rs lines 26-34). -/
structure Meja where
  id : String
  nomor : Nat
  kode : String
  nama_peserta : Option String
  files : List FileInfo
  last_upload : Option Int
deriving DecidableEq, Repr

/-- `SoalFile` (main.rs lines 53-59). -/
structure SoalFile where
  id : String
  filename : String
  path : String
  uploaded_at : Int
deriving DecidableEq, Repr

/-- `AppState` (main.rs lines 61-67); the `HashMap` is an association list. -/
structure AppState where
  meja_list : List (String × Meja)
  timer : TimerState
  soal_files : List SoalFile
  lomba_title : String
deriving DecidableEq, Repr

/-- Lookup in the association list modelling `HashMap::get`. -/
def lookupMeja : List (String × Meja) → String → Option Meja
  | [], _ => none
  | (k, m) :: rest, key => if k = key then some m else lookupMeja rest key

/-- In-place update of one entry, modelling `HashMap::get_mut` (keys are the
`Uuid`s the program generates, hence unique). -/
def updateMeja (f : Meja → Meja) : List (String × Meja) → String → List (String × Meja)
  | [], _ => []
  | (k, m) :: rest, key =>
      if k = key then (k, f m) :: rest else (k, m) :: updateMeja f rest key

/-- A row of the sqlite `meja` table (main.rs lines 162-170). -/
structure MejaRow where
  id : String
  nomor : Nat
  kode : String
  nama_peserta : Option String
deriving DecidableEq, Repr

/-- A row of the sqlite `files` table (main.rs lines 172-183). -/
structure DbFileRow where
  id : String
  meja_id : String
  filename : String
  size : Nat
  uploaded_at : Int
  path : String
deriving DecidableEq, Repr

/-- `MAX_FILE_SIZE` (main.rs line 21). -/
def MAX_FILE_SIZE : Nat := 300 * 1024 * 1024

/-- The path `get_uploads_path(meja_id).join(filename)` (main.rs lines 346-350, 921). -/
def upload_path_of (meja_id filename : String) : String :=
  "./storage/uploads/" ++ meja_id ++ "/" ++ filename

/-- A file creation on disk (`tokio::fs::File::create`, truncating). -/
def diskCreate (disk : List String) (p : String) : List String :=
  if p ∈ disk then disk else disk ++ [p]

/-- A file removal on disk (`tokio::fs::remove_file`). -/
def diskRemove (disk : List String) (p : String) : List String :=
  disk.filter (fun q => q ≠ p)

/-- One multipart field of an upload request: the (sanitized) filename, the
total streamed size in bytes, the `Uuid` drawn for the record, and the value
of `Utc::now()` at record-creation time. -/
structure UploadItem where
  id : String
  filename : String
  size : Nat
  uploaded_at : Int
deriving DecidableEq, Repr

/-- The HTTP outcome of `upload_file`. -/
inductive UploadResult where
  | notFound
  | timeExpired
  | payloadTooLarge
  | success
deriving DecidableEq, Repr

/-- Everything `upload_file` leaves behind: the in-memory state, the rows of
the `files` table, the disk paths present, and whether it broadcast. -/
structure UploadOutcome where
  state : AppState
  db : List DbFileRow
  disk : List String
  broadcast : Bool
  result : UploadResult
deriving DecidableEq, Repr

/-- The remaining-time computation at the top of `upload_file`
(main.rs lines 893-902). -/
def upload_remaining (t : TimerState) (now : Int) : Int :=
  if t.is_running then
    match t.started_at with
    | some started => max (t.duration_seconds - (now - started)) 0
    | none => t.remaining_seconds
  else t.remaining_seconds

/-- The multipart loop of `upload_file` (main.rs lines 915-984).  For each
field: create the file on disk, stream it (cumulative size exceeding
`MAX_FILE_SIZE` aborts, removes the partial file and ends the request), and on
success insert the `files` row and push the `FileInfo`.  Returns the new db
rows, the disk contents, the accumulated `uploaded_files`, and whether the
size ceiling aborted the request. -/
def upload_loop (meja_id : String) :
    List UploadItem → List DbFileRow → List String → List FileInfo →
      List DbFileRow × List String × List FileInfo × Bool
  | [], db, disk, ups => (db, disk, ups, false)
  | item :: rest, db, disk, ups =>
      let path := upload_path_of meja_id item.filename
      let disk1 := diskCreate disk path
      if MAX_FILE_SIZE < item.size then
        (db, diskRemove disk1 path, ups, true)
      else
        upload_loop meja_id rest
          (db ++ [⟨item.id, meja_id, item.filename, item.size, item.uploaded_at, path⟩])
          disk1
          (ups ++ [⟨item.id, item.filename, item.size, item.uploaded_at, path⟩])

/-- The `upload_file` handler (main.rs lines 880-996).  `now_check` is
`Utc::now()` at the expiry check and `now_end` is `Utc::now()` at the final
`last_upload` assignment (line 989). -/
def upload_file (st : AppState) (db : List DbFileRow) (disk : List String)
    (meja_id : String) (items : List UploadItem) (now_check now_end : Int) :
    UploadOutcome :=
  match lookupMeja st.meja_list meja_id with
  | none => ⟨st, db, disk, false, .notFound⟩
  | some _ =>
      if upload_remaining st.timer now_check ≤ 0 ∧ 0 < st.timer.duration_seconds then
        ⟨st, db, disk, false, .timeExpired⟩
      else
        match upload_loop meja_id items db disk [] with
        | (db2, disk2, _, true) => ⟨st, db2, disk2, false, .payloadTooLarge⟩
        | (db2, disk2, ups, false) =>
            ⟨{ st with
                meja_list := updateMeja
                  (fun m => { m with
                      files := m.files ++ ups
                      last_upload := some now_end })
                  st.meja_list meja_id },
              db2, disk2, true, .success⟩

/-- The incremental `last_upload` update of `load_state_from_db`
(main.rs lines 260-262). -/
def lastUploadStep (acc : Option Int) (tNew : Int) : Option Int :=
  match acc with
  | none => some tNew
  | some t => if t < tNew then some tNew else some t

/-- The maximum `uploaded_at` over a list of files, as the fold the loader
performs (order-independent running maximum; `none` on the empty list). -/
def lastUploadOf (files : List FileInfo) : Option Int :=
  files.foldl (fun acc f => lastUploadStep acc f.uploaded_at) none

/-- The `FileInfo` built from a `files` row (main.rs lines 246-255). -/
def fileInfoOfRow (r : DbFileRow) : FileInfo :=
  ⟨r.id, r.filename, r.size, r.uploaded_at, r.path⟩

/-- A fresh `Meja` built from a `meja` row (main.rs lines 225-232). -/
def initMeja (r : MejaRow) : Meja :=
  ⟨r.id, r.nomor, r.kode, r.nama_peserta, [], none⟩

/-- Processing of one `files` row in `load_state_from_db`
(main.rs lines 257-265): if its table exists, raise `last_upload` to the
row's `uploaded_at` and append the file. -/
def applyFileRow (ml : List (String × Meja)) (r : DbFileRow) : List (String × Meja) :=
  updateMeja
    (fun m => { m with
        last_upload := lastUploadStep m.last_upload r.uploaded_at
        files := m.files ++ [fileInfoOfRow r] })
    ml r.meja_id

/-- The `meja_list` built by `load_state_from_db` (main.rs lines 220-267):
tables first, then every `files` row folded in query order. -/
def load_meja (mejaRows : List MejaRow) (fileRows : List DbFileRow) :
    List (String × Meja) :=
  fileRows.foldl applyFileRow (mejaRows.map (fun r => (r.id, initMeja r)))

/-- The alphabet of `generate_kode` (main.rs line 335): 36 characters. -/
def kode_chars : List Char := "abcdefghijklmnopqrstuvwxyz0123456789".toList

/-- `generate_kode` (main.rs lines 334-338), six samples of
`gen_range(0..36)` drawn from the stream `rng` starting at index `pos`. -/
def generate_kode (rng : Nat → Nat) (pos : Nat) : String :=
  String.mk ((List.range 6).map (fun j => kode_chars.getD (rng (pos + j)) 'a'))

/-- Insert into the sqlite `meja` table: `id` is the primary key and `kode`
carries a UNIQUE constraint (main.rs lines 162-170), and `generate_meja`
discards the result of `execute` with `.ok()` (main.rs line 528), so a
conflicting insert silently leaves the table unchanged. -/
def insertMejaRow (rows : List MejaRow) (r : MejaRow) : List MejaRow :=
  if rows.any (fun q => q.id = r.id || q.kode = r.kode) then rows else rows ++ [r]

/-- What `generate_meja` leaves behind: the in-memory `meja_list` and the rows
of the sqlite `meja` table. -/
structure GenResult where
  meja_list : List (String × Meja)
  dbMeja : List MejaRow
deriving DecidableEq, Repr

/-- The `generate_meja` handler core (main.rs lines 513-539): clear the
`files` and `meja` tables and the in-memory map, then for `i` in `1..=jumlah`
draw a fresh id from `ids` and a code from the sample stream `rng`
(table `i` consumes samples `6*(i-1)` to `6*(i-1)+5`), insert the row and the
in-memory entry.  No collision check is performed on the drawn codes. -/
def generate_meja (ids : Nat → String) (rng : Nat → Nat) (jumlah : Nat) : GenResult :=
  (List.range jumlah).foldl
    (fun acc i =>
      let id := ids (i + 1)
      let kode := generate_kode rng (6 * i)
      { meja_list := acc.meja_list ++ [(id, ⟨id, i + 1, kode, none, [], none⟩)]
        dbMeja := insertMejaRow acc.dbMeja ⟨id, i + 1, kode, none⟩ })
    ⟨[], []⟩

/-- The events visible to one websocket connection in `ws_handler`
(main.rs lines 1143-1190): a state snapshot published on the broadcast
channel, the handler's subscription (line 1150), the handler's initial
read-and-send of the current state (lines 1153-1158, payload = the state it
read), and one delivery step of the forward loop (lines 1161-1187). -/
inductive WsEvent where
  | publish (s : AppState)
  | subscribe
  | readSend (s : AppState)
  | deliver
deriving DecidableEq

/-- The observable condition of one websocket connection: whether it is
subscribed, whether the initial snapshot was already sent, the backlog of the
subscription's receiver, and the messages the client received, in order. -/
structure WsModel where
  subscribed : Bool
  sentInitial : Bool
  queue : List AppState
  received : List AppState
deriving DecidableEq

/-- One event of the websocket model.  A publish is enqueued only for a
subscribed receiver; the forward loop (`deliver`) runs only after the initial
send, because in the handler the loop is spawned after the initial
`session.text` (main.rs lines 1152-1161). -/
def wsStep (m : WsModel) : WsEvent → WsModel
  | .publish s => if m.subscribed then { m with queue := m.queue ++ [s] } else m
  | .subscribe => { m with subscribed := true }
  | .readSend s => { m with sentInitial := true, received := m.received ++ [s] }
  | .deliver =>
      if m.sentInitial then
        match m.queue with
        | [] => m
        | s :: rest => { m with queue := rest, received := m.received ++ [s] }
      else m

/-- Run a full event history against a freshly connected client. -/
def wsRun (events : List WsEvent) : WsModel :=
  events.foldl wsStep ⟨false, false, [], []⟩

/-- C4: `adjust_timer` adds `delta` to the duration of a Running timer while
preserving the anchor and the cached remaining value (the elapsed portion is
reinterpreted, not reset), sets a Stopped timer's remaining to
`max (remaining + delta) 0` with the duration re-synced to it, and never turns
a non-negative remaining value negative. -/
theorem C4_adjust (t : TimerState) (d now : Int)
    (hwf : t.is_running = true → t.started_at.isSome = true)
    (hr : 0 ≤ t.remaining_seconds) :
    (t.is_running = true →
        adjust_timer t d now = { t with duration_seconds := t.duration_seconds + d }) ∧
    (t.is_running = false →
        (adjust_timer t d now).remaining_seconds = max (t.remaining_seconds + d) 0 ∧
        (adjust_timer t d now).duration_seconds =
          (adjust_timer t d now).remaining_seconds) ∧
    0 ≤ (adjust_timer t d now).remaining_seconds := by
  refine ⟨fun hrun => ?_, fun hstop => ?_, ?_⟩
  · obtain ⟨s, hs⟩ := Option.isSome_iff_exists.mp (hwf hrun)
    simp only [adjust_timer, hrun, if_true, hs]
    congr 1
    ring
  · simp [adjust_timer, hstop]
  · by_cases hrun : t.is_running = true
    · obtain ⟨s, hs⟩ := Option.isSome_iff_exists.mp (hwf hrun)
      simp only [adjust_timer, hrun, if_true, hs]
      exact hr
    · simp only [Bool.not_eq_true] at hrun
      simp only [adjust_timer, hrun, Bool.false_eq_true, if_false]
      exact le_max_right _ _

/-- C4 witness: a Stopped timer at 30 s adjusted by -45 s clamps to 0, and a
Running timer adjusted by +60 s gains 60 s of duration with nothing else
changed. -/
theorem C4_adjust_w :
    (adjust_timer ⟨false, 30, 30, none⟩ (-45) 7).remaining_seconds =
      max ((30 : Int) + -45) 0 ∧
    (adjust_timer ⟨false, 30, 30, none⟩ (-45) 7).duration_seconds =
      (adjust_timer ⟨false, 30, 30, none⟩ (-45) 7).remaining_seconds ∧
    adjust_timer ⟨true, 30, 30, some 2⟩ 60 7 = ⟨true, 90, 30, some 2⟩ := by
  have h1 := C4_adjust ⟨false, 30, 30, none⟩ (-45) 7 (by intro h; cases h) (by decide)
  have h2 := C4_adjust ⟨true, 30, 30, some 2⟩ 60 7 (fun _ => rfl) (by decide)
  exact ⟨(h1.2.1 rfl).1, (h1.2.1 rfl).2, by simpa using h2.1 rfl⟩

/-- C8: starting an already-Running timer, or a timer with no remaining time,
is a no-op on every field; pausing an already-Stopped timer is a no-op on
every field.  (Both handlers still broadcast, but mutate nothing.) -/
theorem C8_noop (t : TimerState) (now : Int) :
    ((t.is_running = true ∨ t.remaining_seconds ≤ 0) → start_timer t now = t) ∧
    (t.is_running = false → pause_timer t now = t) := by
  constructor
  · intro h
    unfold start_timer
    rw [if_neg]
    rintro ⟨h1, h2⟩
    rcases h with h | h
    · rw [h1] at h; cases h
    · omega
  · intro h
    simp [pause_timer, h]

/-- C8 witness: a Stopped timer with zero remaining is left untouched both by
`start_timer` (remaining ≤ 0) and by `pause_timer` (not running). -/
theorem C8_noop_w :
    start_timer ⟨false, 60, 0, none⟩ 5 = ⟨false, 60, 0, none⟩ ∧
    pause_timer ⟨false, 60, 0, none⟩ 5 = ⟨false, 60, 0, none⟩ :=
  ⟨(C8_noop ⟨false, 60, 0, none⟩ 5).1 (Or.inr (by decide)),
    (C8_noop ⟨false, 60, 0, none⟩ 5).2 rfl⟩

/-- C1 counterexample: a Running tick whose recomputed remaining (7) differs
from the last-broadcast value (-1) does update and broadcast, but performs no
persistence write at all (`saved = none`), contrary to the claim that such a
tick persists the Timer row. -/
theorem C1_cex :
    (timer_tick ⟨true, 10, 10, some 0⟩ (-1) 3).timer.remaining_seconds = 7 ∧
    (timer_tick ⟨true, 10, 10, some 0⟩ (-1) 3).broadcast = true ∧
    (timer_tick ⟨true, 10, 10, some 0⟩ (-1) 3).saved = none := by decide

/-- C1 amended: on a Running tick, if the recomputed remaining differs from
the last-broadcast value the tick updates `remaining_seconds` (performing the
natural-expiry transition when it reached zero) and broadcasts — but it never
writes the Timer row; if the recomputed value is unchanged the tick does
nothing: no field change, no broadcast, and no persistence write. -/
theorem C1_amended (t : TimerState) (last now started : Int)
    (hrun : t.is_running = true) (hst : t.started_at = some started) :
    (max (t.duration_seconds - (now - started)) 0 ≠ last →
      0 < max (t.duration_seconds - (now - started)) 0 →
      timer_tick t last now =
        ⟨{ t with remaining_seconds := max (t.duration_seconds - (now - started)) 0 },
          max (t.duration_seconds - (now - started)) 0, true, none⟩) ∧
    (max (t.duration_seconds - (now - started)) 0 ≠ last →
      max (t.duration_seconds - (now - started)) 0 ≤ 0 →
      timer_tick t last now =
        ⟨{ t with
            remaining_seconds := max (t.duration_seconds - (now - started)) 0
            is_running := false
            started_at := none },
          max (t.duration_seconds - (now - started)) 0, true, none⟩) ∧
    (max (t.duration_seconds - (now - started)) 0 = last →
      timer_tick t last now = ⟨t, last, false, none⟩) := by
  refine ⟨fun hne hpos => ?_, fun hne hle => ?_, fun heq => ?_⟩ <;>
    simp only [timer_tick, hrun, if_true, hst]
  · rw [if_pos hne, if_neg (by omega)]
  · rw [if_pos hne, if_pos hle]
  · rw [if_neg (by simpa using heq)]

/-- The positive part of an operation's delta is non-negative. -/
theorem posOf_nonneg (a : TimerAct) : 0 ≤ posOf a := by
  cases a <;> simp [posOf, le_max_right]

/-- The sum of positive deltas is non-negative. -/
theorem posSum_nonneg (acts : List (Nat × TimerAct)) : 0 ≤ posSum acts := by
  induction acts with
  | nil => simp [posSum]
  | cons hd tl ih =>
      obtain ⟨dt, a⟩ := hd
      have := posOf_nonneg a
      simp only [posSum]
      omega

/-- One operation preserves the bound invariant, with the bound grown by the
operation's positive adjustment part, at any later instant. -/
theorem applyAct_bound (B now now2 : Int) (p : TimerState × Int) (a : TimerAct)
    (hinv : TimerInv B now p.1) (hle : now ≤ now2) :
    TimerInv (B + posOf a) now2 (applyAct p now2 a).1 := by
  obtain ⟨⟨run, dur, rem, st⟩, last⟩ := p
  obtain ⟨hr, hd, hB, hs⟩ := hinv
  dsimp only at hr hd hs
  cases a with
  | start =>
      simp only [applyAct, start_timer, posOf]
      split
      · refine ⟨?_, ?_, ?_, ?_⟩ <;> dsimp only
        · omega
        · omega
        · omega
        · rintro s h
          injection h with h
          omega
      · exact ⟨by dsimp only; omega, by dsimp only; omega, by omega,
          fun s h => le_trans (hs s h) hle⟩
  | pause =>
      cases st with
      | some s0 =>
          have hs0 : s0 ≤ now := hs s0 rfl
          simp only [applyAct, pause_timer, posOf]
          split
          · refine ⟨?_, ?_, ?_, ?_⟩ <;> dsimp only
            · omega
            · omega
            · omega
            · rintro s h
              cases h
          · exact ⟨by dsimp only; omega, by dsimp only; omega, by omega,
              by rintro s h; dsimp only at h; injection h with h; omega⟩
      | none =>
          simp only [applyAct, pause_timer, posOf]
          split
          · refine ⟨?_, ?_, ?_, ?_⟩ <;> dsimp only
            · omega
            · omega
            · omega
            · rintro s h
              cases h
          · exact ⟨by dsimp only; omega, by dsimp only; omega, by omega,
              by rintro s h; cases h⟩
  | reset =>
      simp only [applyAct, reset_timer, posOf]
      refine ⟨?_, ?_, ?_, ?_⟩ <;> dsimp only
      · omega
      · omega
      · omega
      · rintro s h
        cases h
  | adjust d =>
      cases st with
      | some s0 =>
          have hs0 : s0 ≤ now := hs s0 rfl
          simp only [applyAct, adjust_timer, posOf]
          split
          · refine ⟨?_, ?_, ?_, ?_⟩ <;> dsimp only
            · omega
            · omega
            · omega
            · rintro s h
              injection h with h
              omega
          · refine ⟨?_, ?_, ?_, ?_⟩ <;> dsimp only
            · omega
            · omega
            · omega
            · rintro s h
              injection h with h
              omega
      | none =>
          simp only [applyAct, adjust_timer, posOf]
          split
          · refine ⟨?_, ?_, ?_, ?_⟩ <;> dsimp only
            · omega
            · omega
            · omega
            · rintro s h
              cases h
          · refine ⟨?_, ?_, ?_, ?_⟩ <;> dsimp only
            · omega
            · omega
            · omega
            · rintro s h
              cases h
  | tick =>
      cases st with
      | some s0 =>
          have hs0 : s0 ≤ now := hs s0 rfl
          simp only [applyAct, timer_tick, posOf]
          split
          · split
            · split
              · refine ⟨?_, ?_, ?_, ?_⟩ <;> dsimp only
                · omega
                · omega
                · omega
                · rintro s h
                  cases h
              · refine ⟨?_, ?_, ?_, ?_⟩ <;> dsimp only
                · omega
                · omega
                · omega
                · rintro s h
                  injection h with h
                  omega
            · refine ⟨?_, ?_, ?_, ?_⟩ <;> dsimp only
              · omega
              · omega
              · omega
              · rintro s h
                injection h with h
                omega
          · refine ⟨?_, ?_, ?_, ?_⟩ <;> dsimp only
            · omega
            · omega
            · omega
            · rintro s h
              injection h with h
              omega
      | none =>
          simp only [applyAct, timer_tick, posOf]
          split <;>
            refine ⟨by dsimp only; omega, by dsimp only; omega, by omega,
              by rintro s h; dsimp only at h; exact le_trans (hs s h) hle⟩

/-- Every state reached by a run satisfies the bound `B` plus the run's
positive adjustments. -/
theorem runTimer_bound (acts : List (Nat × TimerAct)) :
    ∀ (p : TimerState × Int) (now B : Int), TimerInv B now p.1 →
      ∀ t ∈ runTimer p now acts, t.remaining_seconds ≤ B + posSum acts := by
  induction acts with
  | nil =>
      intro p now B hinv t ht
      simp [runTimer] at ht
  | cons hd tl ih =>
      rintro p now B hinv t ht
      obtain ⟨dt, a⟩ := hd
      have hle : now ≤ now + (dt : Int) := by
        have : (0 : Int) ≤ (dt : Int) := Int.natCast_nonneg dt
        omega
      have hstep := applyAct_bound B now (now + (dt : Int)) p a hinv hle
      have hps := posSum_nonneg tl
      simp only [runTimer, List.mem_cons] at ht
      rcases ht with rfl | ht
      · have := hstep.1
        simp only [posSum]
        omega
      · have := ih (applyAct p (now + (dt : Int)) a) (now + (dt : Int))
          (B + posOf a) hstep t ht
        simp only [posSum]
        omega

/-- Every operation except `reset` leaves a non-negative remaining value
non-negative (each write path is either unchanged or clamped by `max _ 0`). -/
theorem applyAct_nonneg (now2 : Int) (p : TimerState × Int) (a : TimerAct)
    (h : 0 ≤ p.1.remaining_seconds) (hne : a ≠ .reset) :
    0 ≤ (applyAct p now2 a).1.remaining_seconds := by
  cases a with
  | start =>
      simp only [applyAct, start_timer]
      split <;> simpa
  | pause =>
      simp only [applyAct, pause_timer]
      split
      · cases p.1.started_at <;> simp [le_max_right, h]
      · exact h
  | reset => exact absurd rfl hne
  | adjust d =>
      simp only [applyAct, adjust_timer]
      split
      · cases p.1.started_at <;> simpa
      · simp [le_max_right]
  | tick =>
      simp only [applyAct, timer_tick]
      split
      · cases p.1.started_at with
        | some s0 =>
            simp only
            split
            · split <;> simp [le_max_right]
            · exact h
        | none => exact h
      · exact h

/-- In a reset-free run, every reached state has non-negative remaining. -/
theorem runTimer_nonneg (acts : List (Nat × TimerAct)) :
    ∀ (p : TimerState × Int) (now : Int), 0 ≤ p.1.remaining_seconds →
      (∀ pa ∈ acts, pa.2 ≠ TimerAct.reset) →
      ∀ t ∈ runTimer p now acts, 0 ≤ t.remaining_seconds := by
  induction acts with
  | nil =>
      intro p now h hres t ht
      simp [runTimer] at ht
  | cons hd tl ih =>
      rintro p now h hres t ht
      obtain ⟨dt, a⟩ := hd
      have ha : a ≠ TimerAct.reset := hres (dt, a) (List.mem_cons_self _ _)
      have hstep := applyAct_nonneg (now + (dt : Int)) p a h ha
      simp only [runTimer, List.mem_cons] at ht
      rcases ht with rfl | ht
      · exact hstep
      · exact ih (applyAct p (now + (dt : Int)) a) (now + (dt : Int)) hstep
          (fun pa hpa => hres pa (List.mem_cons_of_mem _ hpa)) t ht

/-- C3 counterexample: starting from a freshly configured 60-second timer,
the sequence start; adjust(-120); reset drives `remaining_seconds` to -60,
so the claimed invariant `remaining_seconds ≥ 0` fails (the running adjust
makes `duration_seconds` negative and reset copies it into the remaining). -/
theorem C3_cex :
    ∃ t ∈ runTimer (⟨false, 60, 60, none⟩, -1) 0
        [(0, .start), (0, .adjust (-120)), (0, .reset)],
      t.remaining_seconds < 0 := by decide

/-- C3 amended: over every sequence of start/pause/adjust/reset/tick
operations with non-negative elapsed time between them, starting from a
configured timer of duration `D ≥ 0`, the remaining value after every
operation is at most `D` plus the sum of the positive adjustment deltas; and
in every reset-free such sequence the remaining value also stays ≥ 0 (a reset
after an adjust-while-running that made the duration negative is the one way
to reach a negative remaining). -/
theorem C3_amended (D last now : Int) (acts : List (Nat × TimerAct)) (hD : 0 ≤ D) :
    (∀ t ∈ runTimer (⟨false, D, D, none⟩, last) now acts,
        t.remaining_seconds ≤ D + posSum acts) ∧
    ((∀ pa ∈ acts, pa.2 ≠ TimerAct.reset) →
      ∀ t ∈ runTimer (⟨false, D, D, none⟩, last) now acts,
        0 ≤ t.remaining_seconds) := by
  constructor
  · exact runTimer_bound acts (⟨false, D, D, none⟩, last) now D
      ⟨le_refl D, le_refl D, hD, by rintro s h; cases h⟩
  · intro hres
    exact runTimer_nonneg acts (⟨false, D, D, none⟩, last) now hD hres

/-- C3 witness: a concrete reset-free run (start, a tick two seconds later,
then pause) from a 60-second configuration, bounded by 60 and non-negative. -/
theorem C3_amended_w :
    (0 : Int) ≤ 60 ∧
    (∀ t ∈ runTimer (⟨false, 60, 60, none⟩, -1) 0
        [(1, .start), (2, .tick), (0, .pause)],
      t.remaining_seconds ≤ 60 + posSum [(1, .start), (2, .tick), (0, .pause)]) ∧
    ((∀ pa ∈ ([(1, .start), (2, .tick), (0, .pause)] : List (Nat × TimerAct)),
        pa.2 ≠ TimerAct.reset) →
      ∀ t ∈ runTimer (⟨false, 60, 60, none⟩, -1) 0
          [(1, .start), (2, .tick), (0, .pause)],
        0 ≤ t.remaining_seconds) :=
  ⟨by decide,
    (C3_amended 60 (-1) 0 [(1, .start), (2, .tick), (0, .pause)] (by decide)).1,
    (C3_amended 60 (-1) 0 [(1, .start), (2, .tick), (0, .pause)] (by decide)).2⟩

/-- Creating and then removing a path leaves exactly the disk without that
path, whether or not it existed before. -/
theorem diskRemove_diskCreate (disk : List String) (p : String) :
    diskRemove (diskCreate disk p) p = diskRemove disk p := by
  unfold diskCreate diskRemove
  split
  · rfl
  · rw [List.filter_append]
    simp

/-- Updating a key and looking it up returns the updated value. -/
theorem lookupMeja_updateMeja (f : Meja → Meja) (ml : List (String × Meja)) (k : String) :
    lookupMeja (updateMeja f ml k) k = (lookupMeja ml k).map f := by
  induction ml with
  | nil => simp [updateMeja, lookupMeja]
  | cons hd tl ih =>
      obtain ⟨k2, m⟩ := hd
      by_cases h : k2 = k
      · simp [updateMeja, lookupMeja, h]
      · simp [updateMeja, lookupMeja, h, ih]

/-- A request whose first streamed artifact exceeds the ceiling aborts the
loop at once: no row inserted, the partial file removed, no files recorded. -/
theorem upload_loop_oversize (meja_id : String) (item : UploadItem)
    (rest : List UploadItem) (db : List DbFileRow) (disk : List String)
    (ups : List FileInfo) (hbig : MAX_FILE_SIZE < item.size) :
    upload_loop meja_id (item :: rest) db disk ups =
      (db, diskRemove disk (upload_path_of meja_id item.filename), ups, true) := by
  rw [upload_loop, if_pos hbig, diskRemove_diskCreate]

/-- A single within-limit artifact streams completely: its row is inserted,
its file stays on disk, and it is recorded. -/
theorem upload_loop_single_ok (meja_id : String) (item : UploadItem)
    (db : List DbFileRow) (disk : List String) (ups : List FileInfo)
    (hok : ¬ MAX_FILE_SIZE < item.size) :
    upload_loop meja_id [item] db disk ups =
      (db ++ [⟨item.id, meja_id, item.filename, item.size, item.uploaded_at,
          upload_path_of meja_id item.filename⟩],
        diskCreate disk (upload_path_of meja_id item.filename),
        ups ++ [⟨item.id, item.filename, item.size, item.uploaded_at,
          upload_path_of meja_id item.filename⟩],
        false) := by
  rw [upload_loop, if_neg hok, upload_loop]

/-- An upload whose artifact exceeds the ceiling yields PayloadTooLarge with
the state, rows and broadcast flag of a request that never happened, and the
partial artifact removed from disk. -/
theorem upload_file_oversize (st : AppState) (db : List DbFileRow)
    (disk : List String) (meja_id : String) (item : UploadItem)
    (rest : List UploadItem) (now1 now1e : Int) (m : Meja)
    (hm : lookupMeja st.meja_list meja_id = some m)
    (hexp : ¬ (upload_remaining st.timer now1 ≤ 0 ∧ 0 < st.timer.duration_seconds))
    (hbig : MAX_FILE_SIZE < item.size) :
    upload_file st db disk meja_id (item :: rest) now1 now1e =
      ⟨st, db, diskRemove disk (upload_path_of meja_id item.filename),
        false, .payloadTooLarge⟩ := by
  rw [upload_file]
  rw [hm]
  rw [if_neg hexp, upload_loop_oversize meja_id item rest db disk [] hbig]

/-- An upload of one within-limit artifact succeeds: the row is inserted, the
file is on disk, the table gains the file and `last_upload := now_end`, and a
broadcast is requested. -/
theorem upload_file_single_ok (st : AppState) (db : List DbFileRow)
    (disk : List String) (meja_id : String) (item : UploadItem)
    (now1 now1e : Int) (m : Meja)
    (hm : lookupMeja st.meja_list meja_id = some m)
    (hexp : ¬ (upload_remaining st.timer now1 ≤ 0 ∧ 0 < st.timer.duration_seconds))
    (hok : ¬ MAX_FILE_SIZE < item.size) :
    upload_file st db disk meja_id [item] now1 now1e =
      ⟨{ st with
          meja_list := updateMeja
            (fun mj => { mj with
                files := mj.files ++ [⟨item.id, item.filename, item.size,
                  item.uploaded_at, upload_path_of meja_id item.filename⟩]
                last_upload := some now1e })
            st.meja_list meja_id },
        db ++ [⟨item.id, meja_id, item.filename, item.size, item.uploaded_at,
          upload_path_of meja_id item.filename⟩],
        diskCreate disk (upload_path_of meja_id item.filename),
        true, .success⟩ := by
  rw [upload_file]
  rw [hm]
  rw [if_neg hexp, upload_loop_single_ok meja_id item db disk [] hok]
  rfl

/-- C5: an upload attempt whose streamed artifact exceeds 300 MB removes the
partially written file from disk (leaving no residue of the attempt),
registers no File record either persistently or in memory, does not
broadcast, and returns PayloadTooLarge; a subsequent valid-size upload to the
same table then succeeds normally, appending exactly its file and
broadcasting. -/
theorem C5_oversize (st : AppState) (db : List DbFileRow) (disk : List String)
    (meja_id : String) (item item2 : UploadItem) (now1 now1e now2 now2e : Int)
    (m : Meja)
    (hm : lookupMeja st.meja_list meja_id = some m)
    (hexp : ¬ (upload_remaining st.timer now1 ≤ 0 ∧ 0 < st.timer.duration_seconds))
    (hexp2 : ¬ (upload_remaining st.timer now2 ≤ 0 ∧ 0 < st.timer.duration_seconds))
    (hbig : MAX_FILE_SIZE < item.size)
    (hok : ¬ MAX_FILE_SIZE < item2.size) :
    (upload_file st db disk meja_id [item] now1 now1e).result = .payloadTooLarge ∧
    (upload_file st db disk meja_id [item] now1 now1e).state = st ∧
    (upload_file st db disk meja_id [item] now1 now1e).db = db ∧
    (upload_file st db disk meja_id [item] now1 now1e).broadcast = false ∧
    (upload_file st db disk meja_id [item] now1 now1e).disk =
      diskRemove disk (upload_path_of meja_id item.filename) ∧
    (upload_file st db ((upload_file st db disk meja_id [item] now1 now1e).disk)
        meja_id [item2] now2 now2e).result = .success ∧
    (upload_file st db ((upload_file st db disk meja_id [item] now1 now1e).disk)
        meja_id [item2] now2 now2e).broadcast = true ∧
    lookupMeja (upload_file st db
        ((upload_file st db disk meja_id [item] now1 now1e).disk)
        meja_id [item2] now2 now2e).state.meja_list meja_id =
      some { m with
        files := m.files ++ [⟨item2.id, item2.filename, item2.size,
          item2.uploaded_at, upload_path_of meja_id item2.filename⟩]
        last_upload := some now2e } := by
  have h1 := upload_file_oversize st db disk meja_id item [] now1 now1e m hm hexp hbig
  rw [h1]
  have h2 := upload_file_single_ok st db
    (diskRemove disk (upload_path_of meja_id item.filename))
    meja_id item2 now2 now2e m hm hexp2 hok
  dsimp only
  rw [h2]
  dsimp only
  refine ⟨rfl, rfl, rfl, rfl, rfl, rfl, rfl, ?_⟩
  rw [lookupMeja_updateMeja, hm]
  rfl

/-- C5 witness: a 400 MB artifact for table m1 is rejected and rolled back off
the disk, and a following 10-byte artifact is accepted and recorded. -/
theorem C5_oversize_w :
    (upload_file
        ⟨[("m1", ⟨"m1", 1, "k7x2ab", none, [], none⟩)],
          ⟨false, 600, 600, none⟩, [], "Lomba Coding"⟩
        [] [] "m1" [⟨"f1", "big.zip", 400 * 1024 * 1024, 5⟩] 100 101).result =
      UploadResult.payloadTooLarge ∧
    (upload_file
        ⟨[("m1", ⟨"m1", 1, "k7x2ab", none, [], none⟩)],
          ⟨false, 600, 600, none⟩, [], "Lomba Coding"⟩
        [] [] "m1" [⟨"f1", "big.zip", 400 * 1024 * 1024, 5⟩] 100 101).db = [] ∧
    (upload_file
        ⟨[("m1", ⟨"m1", 1, "k7x2ab", none, [], none⟩)],
          ⟨false, 600, 600, none⟩, [], "Lomba Coding"⟩
        []
        ((upload_file
            ⟨[("m1", ⟨"m1", 1, "k7x2ab", none, [], none⟩)],
              ⟨false, 600, 600, none⟩, [], "Lomba Coding"⟩
            [] [] "m1" [⟨"f1", "big.zip", 400 * 1024 * 1024, 5⟩] 100 101).disk)
        "m1" [⟨"f2", "a.txt", 10, 106⟩] 105 107).result = UploadResult.success := by
  have h := C5_oversize
    ⟨[("m1", ⟨"m1", 1, "k7x2ab", none, [], none⟩)],
      ⟨false, 600, 600, none⟩, [], "Lomba Coding"⟩
    [] [] "m1" ⟨"f1", "big.zip", 400 * 1024 * 1024, 5⟩ ⟨"f2", "a.txt", 10, 106⟩
    100 101 105 107 ⟨"m1", 1, "k7x2ab", none, [], none⟩
    (by rfl) (by decide) (by decide) (by decide) (by decide)
  exact ⟨h.1, h.2.2.1, h.2.2.2.2.2.1⟩

/-- C10: a multi-file upload request whose second artifact exceeds the
ceiling returns PayloadTooLarge, leaves the in-memory state completely
unchanged and broadcasts nothing, yet the `files` row already inserted for
the first, within-limit artifact is not removed: the persistent store gains
one row while the in-memory file set gains none. -/
theorem C10_partial_persist (st : AppState) (db : List DbFileRow)
    (disk : List String) (meja_id : String) (i1 i2 : UploadItem)
    (now1 now1e : Int) (m : Meja)
    (hm : lookupMeja st.meja_list meja_id = some m)
    (hexp : ¬ (upload_remaining st.timer now1 ≤ 0 ∧ 0 < st.timer.duration_seconds))
    (h1 : ¬ MAX_FILE_SIZE < i1.size)
    (h2 : MAX_FILE_SIZE < i2.size) :
    (upload_file st db disk meja_id [i1, i2] now1 now1e).result =
      .payloadTooLarge ∧
    (upload_file st db disk meja_id [i1, i2] now1 now1e).state = st ∧
    (upload_file st db disk meja_id [i1, i2] now1 now1e).broadcast = false ∧
    (upload_file st db disk meja_id [i1, i2] now1 now1e).db =
      db ++ [⟨i1.id, meja_id, i1.filename, i1.size, i1.uploaded_at,
        upload_path_of meja_id i1.filename⟩] ∧
    (upload_file st db disk meja_id [i1, i2] now1 now1e).db.length =
      db.length + 1 := by
  have hloop : upload_loop meja_id [i1, i2] db disk [] =
      (db ++ [⟨i1.id, meja_id, i1.filename, i1.size, i1.uploaded_at,
          upload_path_of meja_id i1.filename⟩],
        diskRemove (diskCreate disk (upload_path_of meja_id i1.filename))
          (upload_path_of meja_id i2.filename),
        [⟨i1.id, i1.filename, i1.size, i1.uploaded_at,
          upload_path_of meja_id i1.filename⟩],
        true) := by
    rw [upload_loop, if_neg h1,
      upload_loop_oversize meja_id i2 [] _ _ _ h2]
    rfl
  rw [upload_file]
  rw [hm]
  rw [if_neg hexp, hloop]
  exact ⟨rfl, rfl, rfl, rfl, by simp⟩

/-- C10 witness: table m1, a 10-byte artifact followed by a 400 MB artifact;
the request fails, the state is untouched, and one row was persisted. -/
theorem C10_partial_persist_w :
    (upload_file
        ⟨[("m1", ⟨"m1", 1, "k7x2ab", none, [], none⟩)],
          ⟨false, 600, 600, none⟩, [], "Lomba Coding"⟩
        [] [] "m1"
        [⟨"f1", "a.txt", 10, 5⟩, ⟨"f2", "big.zip", 400 * 1024 * 1024, 6⟩]
        100 101).result = UploadResult.payloadTooLarge ∧
    (upload_file
        ⟨[("m1", ⟨"m1", 1, "k7x2ab", none, [], none⟩)],
          ⟨false, 600, 600, none⟩, [], "Lomba Coding"⟩
        [] [] "m1"
        [⟨"f1", "a.txt", 10, 5⟩, ⟨"f2", "big.zip", 400 * 1024 * 1024, 6⟩]
        100 101).state =
      ⟨[("m1", ⟨"m1", 1, "k7x2ab", none, [], none⟩)],
        ⟨false, 600, 600, none⟩, [], "Lomba Coding"⟩ ∧
    (upload_file
        ⟨[("m1", ⟨"m1", 1, "k7x2ab", none, [], none⟩)],
          ⟨false, 600, 600, none⟩, [], "Lomba Coding"⟩
        [] [] "m1"
        [⟨"f1", "a.txt", 10, 5⟩, ⟨"f2", "big.zip", 400 * 1024 * 1024, 6⟩]
        100 101).db.length = 0 + 1 := by
  have h := C10_partial_persist
    ⟨[("m1", ⟨"m1", 1, "k7x2ab", none, [], none⟩)],
      ⟨false, 600, 600, none⟩, [], "Lomba Coding"⟩
    [] [] "m1" ⟨"f1", "a.txt", 10, 5⟩ ⟨"f2", "big.zip", 400 * 1024 * 1024, 6⟩
    100 101 ⟨"m1", 1, "k7x2ab", none, [], none⟩
    (by rfl) (by decide) (by decide) (by decide)
  exact ⟨h.1, h.2.1, by rw [h.2.2.2.2]; rfl⟩

/-- C6 counterexample: the timer state Stopped-at-zero with duration 0 is
reachable (configure 1 minute, then adjust by -60 while Stopped), yet an
upload against it is accepted and a File row is created, because the
handler's rejection additionally requires `duration_seconds > 0`
(main.rs line 904). -/
theorem C6_cex :
    adjust_timer (set_timer 1) (-60) 50 = ⟨false, 0, 0, none⟩ ∧
    (upload_file
        ⟨[("m1", ⟨"m1", 1, "k7x2ab", none, [], none⟩)],
          ⟨false, 0, 0, none⟩, [], "Lomba Coding"⟩
        [] [] "m1" [⟨"f1", "a.txt", 10, 5⟩] 100 101).result =
      UploadResult.success ∧
    (upload_file
        ⟨[("m1", ⟨"m1", 1, "k7x2ab", none, [], none⟩)],
          ⟨false, 0, 0, none⟩, [], "Lomba Coding"⟩
        [] [] "m1" [⟨"f1", "a.txt", 10, 5⟩] 100 101).db.length = 1 := by decide

/-- C6 amended: an upload attempted when the recomputed remaining time is ≤ 0
is rejected with the time-expired error and creates no File record — provided
the configured duration is positive; a timer whose duration_seconds is ≤ 0 is
treated as not configured and uploads pass the check even at zero remaining. -/
theorem C6_amended (st : AppState) (db : List DbFileRow) (disk : List String)
    (meja_id : String) (items : List UploadItem) (now1 now1e : Int) (m : Meja)
    (hm : lookupMeja st.meja_list meja_id = some m)
    (hrem : upload_remaining st.timer now1 ≤ 0)
    (hdur : 0 < st.timer.duration_seconds) :
    upload_file st db disk meja_id items now1 now1e =
      ⟨st, db, disk, false, .timeExpired⟩ := by
  rw [upload_file]
  rw [hm]
  rw [if_pos ⟨hrem, hdur⟩]

/-- C6 witness: a Running timer 700 s past its 600 s duration rejects an
upload with the expired error and writes nothing. -/
theorem C6_amended_w :
    upload_file
        ⟨[("m1", ⟨"m1", 1, "k7x2ab", none, [], none⟩)],
          ⟨true, 600, 600, some 0⟩, [], "Lomba Coding"⟩
        [] [] "m1" [⟨"f1", "a.txt", 10, 5⟩] 700 701 =
      ⟨⟨[("m1", ⟨"m1", 1, "k7x2ab", none, [], none⟩)],
          ⟨true, 600, 600, some 0⟩, [], "Lomba Coding"⟩,
        [], [], false, UploadResult.timeExpired⟩ :=
  C6_amended
    ⟨[("m1", ⟨"m1", 1, "k7x2ab", none, [], none⟩)],
      ⟨true, 600, 600, some 0⟩, [], "Lomba Coding"⟩
    [] [] "m1" [⟨"f1", "a.txt", 10, 5⟩] 700 701
    ⟨"m1", 1, "k7x2ab", none, [], none⟩ (by rfl) (by decide) (by decide)

/-- Appending one file advances the running maximum by one step. -/
theorem lastUploadOf_snoc (files : List FileInfo) (f : FileInfo) :
    lastUploadOf (files ++ [f]) =
      lastUploadStep (lastUploadOf files) f.uploaded_at := by
  simp [lastUploadOf, List.foldl_append]

/-- Members of an updated association list: either untouched members of the
original, or the updated image of an original member at the same key. -/
theorem updateMeja_mem (f : Meja → Meja) (key : String) :
    ∀ (ml : List (String × Meja)) (p : String × Meja), p ∈ updateMeja f ml key →
      p ∈ ml ∨ ∃ m, (p.1, m) ∈ ml ∧ p.2 = f m := by
  intro ml
  induction ml with
  | nil =>
      intro p hp
      simp [updateMeja] at hp
  | cons hd tl ih =>
      obtain ⟨k2, m2⟩ := hd
      intro p hp
      by_cases h : k2 = key
      · rw [updateMeja, if_pos h] at hp
        rcases List.mem_cons.mp hp with hp | hp
        · right
          exact ⟨m2, by rw [hp]; exact List.mem_cons_self _ _, by rw [hp]⟩
        · exact Or.inl (List.mem_cons_of_mem _ hp)
      · rw [updateMeja, if_neg h] at hp
        rcases List.mem_cons.mp hp with hp | hp
        · exact Or.inl (by rw [hp]; exact List.mem_cons_self _ _)
        · rcases ih p hp with hin | ⟨m, hin, hpe⟩
          · exact Or.inl (List.mem_cons_of_mem _ hin)
          · exact Or.inr ⟨m, List.mem_cons_of_mem _ hin, hpe⟩

/-- Folding one `files` row preserves the loader invariant that every table's
`last_upload` is the running maximum of its files. -/
theorem applyFileRow_inv (ml : List (String × Meja)) (r : DbFileRow)
    (h : ∀ p ∈ ml, p.2.last_upload = lastUploadOf p.2.files) :
    ∀ p ∈ applyFileRow ml r, p.2.last_upload = lastUploadOf p.2.files := by
  intro p hp
  rcases updateMeja_mem _ _ ml p hp with hin | ⟨m, hin, hpe⟩
  · exact h p hin
  · have hm2 := h (p.1, m) hin
    dsimp only at hm2
    rw [hpe]
    dsimp only
    rw [lastUploadOf_snoc, ← hm2]
    rfl

/-- The loader invariant holds after folding any list of `files` rows over
any table map satisfying it. -/
theorem load_meja_inv_aux (fileRows : List DbFileRow) :
    ∀ ml, (∀ p ∈ ml, p.2.last_upload = lastUploadOf p.2.files) →
      ∀ p ∈ fileRows.foldl applyFileRow ml,
        p.2.last_upload = lastUploadOf p.2.files := by
  induction fileRows with
  | nil =>
      intro ml h
      simpa using h
  | cons r rest ih =>
      intro ml h
      exact ih (applyFileRow ml r) (applyFileRow_inv ml r h)

/-- Every table produced by the loader carries
`last_upload = lastUploadOf files`. -/
theorem load_meja_inv (mejaRows : List MejaRow) (fileRows : List DbFileRow) :
    ∀ p ∈ load_meja mejaRows fileRows,
      p.2.last_upload = lastUploadOf p.2.files := by
  apply load_meja_inv_aux
  intro p hp
  simp only [List.mem_map] at hp
  obtain ⟨r, hr, rfl⟩ := hp
  rfl

/-- The running maximum is `none` exactly on no files, and any `some v` it
returns is attained by a file and bounds every file's timestamp. -/
theorem lastUploadOf_max (files : List FileInfo) :
    (lastUploadOf files = none ↔ files = []) ∧
    ∀ v, lastUploadOf files = some v →
      (∃ f ∈ files, f.uploaded_at = v) ∧ ∀ f ∈ files, f.uploaded_at ≤ v := by
  induction files using List.reverseRecOn with
  | nil => simp [lastUploadOf]
  | append_singleton l f ih =>
      rw [lastUploadOf_snoc]
      constructor
      · cases hl : lastUploadOf l <;> simp [lastUploadStep]
        split <;> simp
      · intro v hv
        cases hl : lastUploadOf l with
        | none =>
            have hle : l = [] := ih.1.mp hl
            rw [hl] at hv
            simp only [lastUploadStep] at hv
            injection hv with hv
            subst hle
            subst hv
            exact ⟨⟨f, by simp, rfl⟩, by simp⟩
        | some w =>
            obtain ⟨⟨g, hg, hgv⟩, hbound⟩ := ih.2 w hl
            rw [hl] at hv
            simp only [lastUploadStep] at hv
            split at hv
            · injection hv with hv
              subst hv
              refine ⟨⟨f, by simp, rfl⟩, ?_⟩
              intro f2 hf2
              rcases List.mem_append.mp hf2 with hf2 | hf2
              · have := hbound f2 hf2
                omega
              · rcases List.mem_singleton.mp hf2 with rfl
                exact le_refl _
            · injection hv with hv
              subst hv
              refine ⟨⟨g, List.mem_append_left _ hg, hgv⟩, ?_⟩
              intro f2 hf2
              rcases List.mem_append.mp hf2 with hf2 | hf2
              · exact hbound f2 hf2
              · rcases List.mem_singleton.mp hf2 with rfl
                omega

/-- A successful upload leaves the target table with its files extended and
`last_upload` overwritten by the completion instant `now_end`. -/
theorem upload_file_success_state (st : AppState) (db : List DbFileRow)
    (disk : List String) (meja_id : String) (items : List UploadItem)
    (now1 now1e : Int) (m : Meja)
    (hm : lookupMeja st.meja_list meja_id = some m)
    (hres : (upload_file st db disk meja_id items now1 now1e).result = .success) :
    ∃ ups,
      lookupMeja (upload_file st db disk meja_id items now1 now1e).state.meja_list
          meja_id =
        some { m with files := m.files ++ ups, last_upload := some now1e } := by
  by_cases hexp : upload_remaining st.timer now1 ≤ 0 ∧ 0 < st.timer.duration_seconds
  · exfalso
    rw [upload_file] at hres
    rw [hm] at hres
    rw [if_pos hexp] at hres
    exact absurd hres (by simp)
  · rcases hloop : upload_loop meja_id items db disk [] with ⟨db2, disk2, ups, flag⟩
    cases flag with
    | true =>
        exfalso
        rw [upload_file] at hres
        rw [hm] at hres
        rw [if_neg hexp, hloop] at hres
        exact absurd hres (by simp)
    | false =>
        refine ⟨ups, ?_⟩
        rw [upload_file]
        rw [hm]
        rw [if_neg hexp, hloop]
        dsimp only
        rw [lookupMeja_updateMeja, hm]
        rfl

/-- C7 counterexample: one successful upload of a file with
`uploaded_at = 5`, completing at instant 107, leaves the table with
`last_upload = some 107` while the maximum `uploaded_at` over its files is 5,
so `last_upload` does not equal the maximum upload timestamp of the files. -/
theorem C7_cex :
    lookupMeja (upload_file
        ⟨[("m1", ⟨"m1", 1, "k7x2ab", none, [], none⟩)],
          ⟨false, 600, 600, none⟩, [], "Lomba Coding"⟩
        [] [] "m1" [⟨"f1", "a.txt", 10, 5⟩] 100 107).state.meja_list "m1" =
      some ⟨"m1", 1, "k7x2ab", none,
        [⟨"f1", "a.txt", 10, 5, "./storage/uploads/m1/a.txt"⟩], some 107⟩ ∧
    lastUploadOf [⟨"f1", "a.txt", 10, 5, "./storage/uploads/m1/a.txt"⟩] =
      some 5 ∧
    (some 107 : Option Int) ≠ some 5 := by decide

/-- C7 amended: after `load_state_from_db` every table's `last_upload` is
exactly the maximum `uploaded_at` over its File records (absent iff it has no
files); but a successful upload request overwrites `last_upload` with the
request's completion instant (even when it appended no files), which need not
equal that maximum, so the claimed invariant holds after loads but not after
uploads. -/
theorem C7_amended (mejaRows : List MejaRow) (fileRows : List DbFileRow)
    (st : AppState) (db : List DbFileRow) (disk : List String)
    (meja_id : String) (items : List UploadItem) (now1 now1e : Int) (m : Meja)
    (hm : lookupMeja st.meja_list meja_id = some m)
    (hres : (upload_file st db disk meja_id items now1 now1e).result = .success) :
    (∀ p ∈ load_meja mejaRows fileRows,
      (p.2.files = [] → p.2.last_upload = none) ∧
      (p.2.last_upload = none → p.2.files = []) ∧
      ∀ v, p.2.last_upload = some v →
        (∃ f ∈ p.2.files, f.uploaded_at = v) ∧
        ∀ f ∈ p.2.files, f.uploaded_at ≤ v) ∧
    ∃ ups,
      lookupMeja (upload_file st db disk meja_id items now1 now1e).state.meja_list
          meja_id =
        some { m with files := m.files ++ ups, last_upload := some now1e } := by
  constructor
  · intro p hp
    have hinv := load_meja_inv mejaRows fileRows p hp
    refine ⟨?_, ?_, ?_⟩
    · intro hfe
      rw [hinv, hfe]
      rfl
    · intro hnone
      exact (lastUploadOf_max p.2.files).1.mp (by rw [← hinv]; exact hnone)
    · intro v hv
      exact (lastUploadOf_max p.2.files).2 v (by rw [← hinv]; exact hv)
  · exact upload_file_success_state st db disk meja_id items now1 now1e m hm hres

/-- C7 witness: the amended statement at one loaded row set and one concrete
successful upload. -/
theorem C7_amended_w :
    (∀ p ∈ load_meja [⟨"m1", 1, "k7x2ab", none⟩]
        [⟨"f0", "m1", "b.txt", 3, 9, "pb"⟩],
      (p.2.files = [] → p.2.last_upload = none) ∧
      (p.2.last_upload = none → p.2.files = []) ∧
      ∀ v, p.2.last_upload = some v →
        (∃ f ∈ p.2.files, f.uploaded_at = v) ∧
        ∀ f ∈ p.2.files, f.uploaded_at ≤ v) ∧
    ∃ ups,
      lookupMeja (upload_file
          ⟨[("m1", ⟨"m1", 1, "k7x2ab", none, [], none⟩)],
            ⟨false, 600, 600, none⟩, [], "Lomba Coding"⟩
          [] [] "m1" [⟨"f1", "a.txt", 10, 5⟩] 100 107).state.meja_list "m1" =
        some { (⟨"m1", 1, "k7x2ab", none, [], none⟩ : Meja) with
          files := ([] : List FileInfo) ++ ups, last_upload := some 107 } :=
  C7_amended [⟨"m1", 1, "k7x2ab", none⟩] [⟨"f0", "m1", "b.txt", 3, 9, "pb"⟩]
    ⟨[("m1", ⟨"m1", 1, "k7x2ab", none, [], none⟩)],
      ⟨false, 600, 600, none⟩, [], "Lomba Coding"⟩
    [] [] "m1" [⟨"f1", "a.txt", 10, 5⟩] 100 107
    ⟨"m1", 1, "k7x2ab", none, [], none⟩ (by rfl) (by decide)

/-- C2 evaluation at a failing random stream: with `jumlah = 2` and every
`gen_range(0..36)` sample equal to 0, both generated tables receive the join
code "aaaaaa" in the in-memory state, while the sqlite `meja` table — whose
UNIQUE constraint on `kode` rejects the second insert, an error the handler
silently discards with `.ok()` — retains only one row. -/
theorem C2_eval :
    ((generate_meja (fun n => if n = 1 then "u1" else "u2") (fun _ => 0)
        2).meja_list.map (fun p => p.2.kode)) = ["aaaaaa", "aaaaaa"] ∧
    (generate_meja (fun n => if n = 1 then "u1" else "u2") (fun _ => 0)
        2).dbMeja.length = 1 := by decide

/-- One websocket step commutes with prepending already-received messages:
each event only ever appends to `received`. -/
theorem wsStep_received_prefix (e : WsEvent) (m : WsModel) (r : List AppState) :
    wsStep { m with received := r ++ m.received } e =
      { wsStep m e with received := r ++ (wsStep m e).received } := by
  obtain ⟨sub, sent, queue, rec⟩ := m
  cases e with
  | publish s =>
      dsimp only [wsStep]
      split <;> rfl
  | subscribe => rfl
  | readSend s =>
      dsimp only [wsStep]
      rw [List.append_assoc]
  | deliver =>
      dsimp only [wsStep]
      split
      · cases queue with
        | nil => rfl
        | cons q rest =>
            dsimp only
            rw [List.append_assoc]
      · rfl

/-- Folding any event suffix over a model with pre-received messages yields
those messages as an unchanged prefix of the final `received`. -/
theorem wsRun_received_prefix (post : List WsEvent) :
    ∀ (m : WsModel) (r : List AppState),
      (post.foldl wsStep { m with received := r ++ m.received }).received =
        r ++ (post.foldl wsStep m).received := by
  induction post with
  | nil => intro m r; rfl
  | cons e rest ih =>
      intro m r
      rw [List.foldl_cons, List.foldl_cons, wsStep_received_prefix]
      exact ih (wsStep m e) r

/-- Messages published before the subscription leave the connection model
untouched: they are neither queued nor delivered. -/
theorem wsRun_pre (pre : List AppState) :
    (pre.map WsEvent.publish).foldl wsStep ⟨false, false, [], []⟩ =
      ⟨false, false, [], []⟩ := by
  induction pre with
  | nil => rfl
  | cons s rest ih =>
      rw [List.map_cons, List.foldl_cons]
      exact ih

/-- Messages published between subscription and the initial send are queued
in publish order behind any existing backlog. -/
theorem wsRun_mid (mid : List AppState) :
    ∀ q, (mid.map WsEvent.publish).foldl wsStep ⟨true, false, q, []⟩ =
      ⟨true, false, q ++ mid, []⟩ := by
  induction mid with
  | nil =>
      intro q
      simp
  | cons s rest ih =>
      intro q
      rw [List.map_cons, List.foldl_cons]
      rw [show wsStep ⟨true, false, q, []⟩ (.publish s) =
        ⟨true, false, q ++ [s], []⟩ from rfl]
      rw [ih (q ++ [s])]
      simp

/-- C9: for every connection history — any publishes before the subscription,
any publishes in the window between the subscription and the handler's
read-and-send of the current state `sR`, and any mixture of publishes and
forward-loop deliveries afterwards — the first value the subscriber receives
is exactly the full snapshot `sR` read at subscribe time, every broadcast
update is delivered strictly after it, and nothing published before the
subscription is ever delivered (the tail depends only on the post-subscribe
events). -/
theorem C9_first_snapshot (pre mid : List AppState) (sR : AppState)
    (post : List WsEvent) :
    (wsRun (pre.map WsEvent.publish ++ WsEvent.subscribe ::
        (mid.map WsEvent.publish ++ WsEvent.readSend sR :: post))).received =
      sR :: (post.foldl wsStep ⟨true, true, mid, []⟩).received := by
  unfold wsRun
  rw [List.foldl_append, wsRun_pre, List.foldl_cons]
  rw [show wsStep ⟨false, false, [], []⟩ .subscribe =
    ⟨true, false, [], []⟩ from rfl]
  rw [List.foldl_append]
  rw [show (⟨true, false, [], []⟩ : WsModel) = ⟨true, false, [], []⟩ from rfl,
    wsRun_mid mid []]
  rw [List.foldl_cons]
  rw [show wsStep ⟨true, false, [] ++ mid, []⟩ (.readSend sR) =
    ⟨true, true, [] ++ mid, [sR]⟩ from rfl]
  have h := wsRun_received_prefix post ⟨true, true, [] ++ mid, []⟩ [sR]
  simpa using h

/-- C1 witness: the changed-value branch at a concrete Running timer. -/
theorem C1_amended_w :
    max ((10 : Int) - (3 - 0)) 0 ≠ -1 ∧
    (0 : Int) < max ((10 : Int) - (3 - 0)) 0 ∧
    timer_tick ⟨true, 10, 10, some 0⟩ (-1) 3 =
      ⟨⟨true, 10, max ((10 : Int) - (3 - 0)) 0, some 0⟩,
        max ((10 : Int) - (3 - 0)) 0, true, none⟩ :=
  ⟨by decide, by decide,
    (C1_amended ⟨true, 10, 10, some 0⟩ (-1) 3 0 rfl rfl).1 (by decide) (by decide)⟩

end Upfiles



